import Mathlib

/-!
Verification of the spur-gear generation core (`gear.py`) of the
Omniverse_Planetary_System repository, as a shallow embedding over exact
real arithmetic.  Geometric regions are modelled as subsets of the plane
`ℝ × ℝ`; the polygon operations of the shapely library (union, difference,
convex hull, buffer, affine transforms) are modelled by their exact
set-theoretic counterparts, and numpy's float arithmetic by real
arithmetic.
-/

namespace Gear

noncomputable section

/-- A point of the plane, as numpy rows `[x, y]`. -/
abbrev Pt : Type := ℝ × ℝ

/-- The seven arguments of `generate` in `gear.py`. -/
structure GearSpec where
  teeth_count : ℕ
  module : ℝ
  pressure_angle : ℝ
  backlash : ℝ
  frame_count : ℕ
  profile_shift : ℝ
  clearance_factor : ℝ

/-- The helper `deg2rad` of `gear.py`: `(np.pi / 180) * x`. -/
def deg2rad (x : ℝ) : ℝ := (Real.pi / 180) * x

/-- The helper `rotation(X, angle)` of `gear.py` with `center=None`, applied to
one point: `np.dot(X, rot_matrix(angle))` sends the row vector `(x, y)` to
`(x*cos a + y*sin a, -(x*sin a) + y*cos a)` (row-vector times the matrix
`[[c, -s], [s, c]]`). -/
def rotation_point (p : Pt) (a : ℝ) : Pt :=
  (p.1 * Real.cos a + p.2 * Real.sin a, -(p.1 * Real.sin a) + p.2 * Real.cos a)

/-- The helper `rotation(X, angle)` of `gear.py` with `center=None`, on a list
of points. -/
def rotation (X : List Pt) (a : ℝ) : List Pt := X.map (fun p => rotation_point p a)

/-- Counter-clockwise rotation by `a` about the origin: the convention of
`shapely.affinity.rotate` with a positive angle (and the standard mathematical
convention). -/
def ccwRot (a : ℝ) (p : Pt) : Pt :=
  (p.1 * Real.cos a - p.2 * Real.sin a, p.1 * Real.sin a + p.2 * Real.cos a)

/-- Reflection about the vertical axis: `scale(poly, -1, 1, 1, Point(0,0))`. -/
def mirror (p : Pt) : Pt := (-p.1, p.2)

/-- Squared Euclidean norm of a point. -/
def normSq (p : Pt) : ℝ := p.1 ^ 2 + p.2 ^ 2

/-- The gear blank `Point(0., 0.).buffer(outer_radius)`, modelled exactly as
the closed disk of the given radius centered at the origin. -/
def disk (r : ℝ) : Set Pt := {p | normSq p ≤ r ^ 2}

/-- Derived scalar of `generate`: `pitch_diameter = module * (teeth_count + 2 * profile_shift)`. -/
def pitch_diameter (s : GearSpec) : ℝ := s.module * ((s.teeth_count : ℝ) + 2 * s.profile_shift)

/-- Derived scalar of `generate`: `pitch_radius = pitch_diameter / 2`. -/
def pitch_radius (s : GearSpec) : ℝ := pitch_diameter s / 2

/-- Derived scalar of `generate`: `circular_pitch = np.pi * module`. -/
def circular_pitch (s : GearSpec) : ℝ := Real.pi * s.module

/-- Derived scalar of `generate`: `base_radius = pitch_radius * np.cos(pressure_angle)`
(diagnostic only). -/
def base_radius (s : GearSpec) : ℝ := pitch_radius s * Real.cos s.pressure_angle

/-- Derived scalar of `generate`: `tooth_thickness = (circular_pitch / 2) - backlash`. -/
def tooth_thickness (s : GearSpec) : ℝ := circular_pitch s / 2 - s.backlash

/-- Derived scalar of `generate`: `addendum = module`. -/
def addendum (s : GearSpec) : ℝ := s.module

/-- Derived scalar of `generate`: `clearance = clearance_factor * module`. -/
def clearance (s : GearSpec) : ℝ := s.clearance_factor * s.module

/-- Derived scalar of `generate`: `dedendum = module + clearance`. -/
def dedendum (s : GearSpec) : ℝ := s.module + clearance s

/-- Derived scalar of `generate`: `outer_radius = pitch_radius + addendum`. -/
def outer_radius (s : GearSpec) : ℝ := pitch_radius s + addendum s

/-- Derived scalar of `generate`: `root_radius = pitch_radius - dedendum`. -/
def root_radius (s : GearSpec) : ℝ := pitch_radius s - dedendum s

/-- The 4-point trapezoidal cutter profile of `generate` (Step 2 of the code),
in source order. -/
def profile (s : GearSpec) : List Pt :=
  [ (-(0.5 * tooth_thickness s + addendum s * Real.tan s.pressure_angle), addendum s),
    (-(0.5 * tooth_thickness s - dedendum s * Real.tan s.pressure_angle), -dedendum s),
    (0.5 * tooth_thickness s - dedendum s * Real.tan s.pressure_angle, -dedendum s),
    (0.5 * tooth_thickness s + addendum s * Real.tan s.pressure_angle, addendum s) ]

/-- The sweep's angular range `l = 2 * tooth_thickness / pitch_radius` of the code. -/
def sweep_range (s : GearSpec) : ℝ := 2 * tooth_thickness s / pitch_radius s

/-- `np.linspace(0, l, n)` in exact arithmetic: the `n` samples `l * i / (n - 1)`. -/
def linspace (l : ℝ) (n : ℕ) : List ℝ :=
  (List.range n).map (fun i : ℕ => l * (i : ℝ) / ((n : ℝ) - 1))

/-- One sweep frame of the code:
`X = rotation(profile + np.array([-theta * pitch_radius, pitch_radius]), theta)`. -/
def frame (s : GearSpec) (θ : ℝ) : List Pt :=
  rotation ((profile s).map (fun p => (p.1 - θ * pitch_radius s, p.2 + pitch_radius s))) θ

/-- The full ordered sweep: one frame per `theta in np.linspace(0, l, frame_count)`. -/
def frames (s : GearSpec) : List (List Pt) :=
  (linspace (sweep_range s) s.frame_count).map (fun θ => frame s θ)

/-- The `poly_list` loop of the code: for every pair of consecutive frames,
`MultiPoint([x for x in X] + [x for x in prev_X]).convex_hull`, the convex hull
of the 8 combined points. -/
def pairHulls : List (List Pt) → List (Set Pt)
  | X :: Y :: rest => convexHull ℝ {p | p ∈ X ∨ p ∈ Y} :: pairHulls (Y :: rest)
  | _ => []

/-- `shapely.ops.unary_union` on a list of regions. -/
def listUnion (L : List (Set Pt)) : Set Pt := {p | ∃ S ∈ L, p ∈ S}

/-- `tooth_poly = unary_union(poly_list)` of the code. -/
def tooth_union (s : GearSpec) : Set Pt := listUnion (pairHulls (frames s))

/-- `tooth_poly = tooth_poly.union(scale(tooth_poly, -1, 1, 1, Point(0., 0.)))`:
the one-sided sweep union together with its mirror image. -/
def tooth_poly (s : GearSpec) : Set Pt := tooth_union s ∪ mirror '' tooth_union s

/-- The cutting loop of Step 4 of the code: starting from the disk of radius
`r`, repeat `n` times `gear_poly = rotate(gear_poly.difference(C), a, Point(0,0),
use_radians=True)`, as a left fold over `range(n)`. -/
def cutFold (C : Set Pt) (a r : ℝ) (n : ℕ) : Set Pt :=
  (List.range n).foldl (fun A _ => ccwRot a '' (A \ C)) (disk r)

/-- The whole `generate` of `gear.py`: returns the final gear region and the
pitch radius.  The debug `print` statements write the derived values to stdout
and do not affect the result. -/
def generate (s : GearSpec) : Set Pt × ℝ :=
  (cutFold (tooth_poly s) (2 * Real.pi / (s.teeth_count : ℝ)) (outer_radius s) s.teeth_count,
   pitch_radius s)

/-- Concrete scenario A of the spec: teeth 20, module 2, pressure angle 20°,
backlash 0.1, frame count 16, no profile shift, clearance factor 0.167. -/
def specA : GearSpec := ⟨20, 2, deg2rad 20, 0.1, 16, 0, 0.167⟩

/-- Concrete scenario B of the spec: teeth 10, module 2, profile shift 1. -/
def specB : GearSpec := ⟨10, 2, deg2rad 20, 0.1, 16, 1, 0.167⟩

/-- An infeasible parameter set: backlash 10 exceeds half the circular pitch
`π`, so `tooth_thickness = π - 10 < 0`. -/
def specBad : GearSpec := ⟨8, 2, deg2rad 20, 10, 16, 0.5, 0.167⟩

/-! ### Basic lemmas about the rotation helpers -/

lemma rotation_point_eq_ccwRot (p : Pt) (a : ℝ) : rotation_point p a = ccwRot (-a) p := by
  unfold rotation_point ccwRot
  rw [Real.cos_neg, Real.sin_neg]
  simp only [Prod.mk.injEq]
  constructor <;> ring

lemma normSq_rotation_point (p : Pt) (a : ℝ) : normSq (rotation_point p a) = normSq p := by
  unfold normSq rotation_point
  simp only
  linear_combination (p.1 ^ 2 + p.2 ^ 2) * Real.sin_sq_add_cos_sq a

lemma ccwRot_ccwRot (a b : ℝ) (p : Pt) : ccwRot a (ccwRot b p) = ccwRot (a + b) p := by
  unfold ccwRot
  rw [Real.cos_add, Real.sin_add]
  simp only [Prod.mk.injEq]
  constructor <;> ring

lemma ccwRot_zero (p : Pt) : ccwRot 0 p = p := by
  unfold ccwRot
  simp

lemma ccwRot_two_pi (p : Pt) : ccwRot (2 * Real.pi) p = p := by
  unfold ccwRot
  simp [Real.cos_two_pi, Real.sin_two_pi]

lemma ccwRot_injective (a : ℝ) : Function.Injective (ccwRot a) := by
  intro p q h
  have h2 := congrArg (ccwRot (-a)) h
  have h0 : -a + a = 0 := by ring
  rwa [ccwRot_ccwRot, ccwRot_ccwRot, h0, ccwRot_zero, ccwRot_zero] at h2

lemma normSq_ccwRot (a : ℝ) (p : Pt) : normSq (ccwRot a p) = normSq p := by
  unfold normSq ccwRot
  simp only
  linear_combination (p.1 ^ 2 + p.2 ^ 2) * Real.sin_sq_add_cos_sq a

/-! ### Set-level rotation algebra -/

lemma ccwRot_zero_image (A : Set Pt) : ccwRot 0 '' A = A := by
  have h : ccwRot 0 = fun p => p := funext fun p => ccwRot_zero p
  rw [h, Set.image_id']

lemma ccwRot_image_image (a b : ℝ) (A : Set Pt) :
    ccwRot a '' (ccwRot b '' A) = ccwRot (a + b) '' A := by
  rw [Set.image_image]
  exact Set.image_congr fun p _ => ccwRot_ccwRot a b p

lemma image_diff_ccwRot (a : ℝ) (A C : Set Pt) :
    ccwRot a '' (A \ C) = ccwRot a '' A \ ccwRot a '' C :=
  Set.image_diff (ccwRot_injective a) A C

lemma ccwRot_image_disk (a r : ℝ) : ccwRot a '' disk r = disk r := by
  ext p
  constructor
  · rintro ⟨q, hq, rfl⟩
    simpa only [disk, Set.mem_setOf_eq, normSq_ccwRot] using hq
  · intro hp
    refine ⟨ccwRot (-a) p, ?_, ?_⟩
    · simpa only [disk, Set.mem_setOf_eq, normSq_ccwRot] using hp
    · have h0 : a + -a = 0 := by ring
      rw [ccwRot_ccwRot, h0]
      exact ccwRot_zero p

/-- The union of the cavity `C` rotated by `k * a` for `k = 1, …, n`, written
as a recursion that mirrors peeling one loop iteration. -/
def rotUnion (C : Set Pt) (a : ℝ) : ℕ → Set Pt
  | 0 => ∅
  | n + 1 => ccwRot a '' (rotUnion C a n ∪ C)

lemma rotUnion_succ_top (C : Set Pt) (a : ℝ) (n : ℕ) :
    rotUnion C a (n + 1) = rotUnion C a n ∪ ccwRot (((n : ℝ) + 1) * a) '' C := by
  induction n with
  | zero =>
    simp [rotUnion]
  | succ n ih =>
    show ccwRot a '' (rotUnion C a (n + 1) ∪ C) = rotUnion C a (n + 1) ∪ _
    rw [ih, Set.union_right_comm, Set.image_union, ccwRot_image_image]
    have ha : a + ((n : ℝ) + 1) * a = ((n : ℝ) + 1 + 1) * a := by ring
    rw [ha]
    push_cast
    rw [← ih]
    rfl

lemma rotUnion_eq_biUnion (C : Set Pt) (a : ℝ) (n : ℕ) :
    rotUnion C a n = ⋃ k ∈ Finset.Icc 1 n, ccwRot ((k : ℝ) * a) '' C := by
  induction n with
  | zero => simp [rotUnion]
  | succ n ih =>
    rw [rotUnion_succ_top, ih, ← Nat.Icc_insert_succ_right (by omega),
      Finset.set_biUnion_insert, Set.union_comm]
    push_cast
    rfl

lemma cutFold_succ (C : Set Pt) (a r : ℝ) (n : ℕ) :
    cutFold C a r (n + 1) = ccwRot a '' (cutFold C a r n \ C) := by
  unfold cutFold
  rw [List.range_succ, List.foldl_append]
  rfl

lemma cutFold_eq_iterate (C : Set Pt) (a r : ℝ) (n : ℕ) :
    cutFold C a r n = (fun A => ccwRot a '' (A \ C))^[n] (disk r) := by
  induction n with
  | zero => rfl
  | succ n ih => rw [cutFold_succ, ih, Function.iterate_succ_apply']

lemma cutFold_closed (C : Set Pt) (a r : ℝ) (n : ℕ) :
    cutFold C a r n = ccwRot ((n : ℝ) * a) '' disk r \ rotUnion C a n := by
  induction n with
  | zero =>
    simp only [cutFold, List.range_zero, List.foldl_nil, rotUnion, Set.diff_empty,
      Nat.cast_zero, zero_mul, ccwRot_zero_image]
  | succ n ih =>
    rw [cutFold_succ, ih, Set.diff_diff, image_diff_ccwRot, ccwRot_image_image]
    have ha : a + (n : ℝ) * a = ((n : ℝ) + 1) * a := by ring
    rw [ha]
    push_cast
    rfl

/-- Rotating the full gear blank by the per-tooth angle `n` times is the
identity rotation by `2π` (trivially the identity also when `n = 0`). -/
lemma teeth_rot_id (n : ℕ) (p : Pt) : ccwRot ((n : ℝ) * (2 * Real.pi / (n : ℝ))) p = p := by
  rcases Nat.eq_zero_or_pos n with h | h
  · subst h
    simpa using ccwRot_zero p
  · have hn0 : (n : ℝ) ≠ 0 := Nat.cast_ne_zero.mpr (by omega)
    have ha : (n : ℝ) * (2 * Real.pi / (n : ℝ)) = 2 * Real.pi := by field_simp
    rw [ha]
    exact ccwRot_two_pi p

/-- Closed form for the returned gear region: the blank disk minus the
tooth cavity rotated into each of the `teeth_count` angular positions. -/
lemma generate_closed (s : GearSpec) :
    (generate s).1 = disk (outer_radius s)
      \ ⋃ k ∈ Finset.Icc 1 s.teeth_count,
          ccwRot ((k : ℝ) * (2 * Real.pi / (s.teeth_count : ℝ))) '' tooth_poly s := by
  show cutFold _ _ _ _ = _
  rw [cutFold_closed, rotUnion_eq_biUnion]
  have h : ccwRot ((s.teeth_count : ℝ) * (2 * Real.pi / (s.teeth_count : ℝ))) = fun p => p :=
    funext fun p => teeth_rot_id s.teeth_count p
  rw [h, Set.image_id']

lemma rotUnion_rot_invariant (C : Set Pt) (a : ℝ) (n : ℕ) (hn : 1 ≤ n)
    (hid : ∀ p : Pt, ccwRot ((n : ℝ) * a) p = p) :
    ccwRot a '' rotUnion C a n = rotUnion C a n := by
  obtain ⟨m, rfl⟩ : ∃ m, n = m + 1 := ⟨n - 1, by omega⟩
  have hC : ccwRot (((m : ℝ) + 1) * a) '' C = C := by
    have h : ccwRot (((m : ℝ) + 1) * a) = fun p => p := by
      have hcast : ((m : ℝ) + 1) * a = (((m + 1 : ℕ)) : ℝ) * a := by push_cast; ring
      rw [hcast]
      exact funext hid
    rw [h, Set.image_id']
  conv_lhs => rw [rotUnion_succ_top, hC]
  rfl

/-! ### Claims C1, C4, C6, C7 -/

/-- C1 counterexample: on `specBad` the derived tooth thickness is negative
(`π - 10 < 0`), yet `generate` raises no domain error: it performs the whole
geometry construction and returns the assembled polygon together with pitch
radius 9, refuting the claim that infeasible derived values prevent a polygon
from being returned. -/
theorem C1_counterexample :
    tooth_thickness specBad < 0
    ∧ (generate specBad).2 = 9
    ∧ (generate specBad).1 = disk (outer_radius specBad)
        \ ⋃ k ∈ Finset.Icc (1 : ℕ) 8,
            ccwRot ((k : ℝ) * (2 * Real.pi / ((8 : ℕ) : ℝ))) '' tooth_poly specBad := by
  refine ⟨?_, ?_, ?_⟩
  · have hpi := Real.pi_lt_d2
    simp only [tooth_thickness, circular_pitch, specBad]
    linarith
  · norm_num [generate, pitch_radius, pitch_diameter, specBad]
  · exact generate_closed specBad

/-- C1 amended: `generate` performs no feasibility validation: for every
GearSpec whose derived tooth_thickness or root_radius is ≤ 0, it still carries
out the full geometry construction and returns the assembled polygon together
with the pitch radius computed by the reference formula — the infeasible
values are used as-is, neither clamped nor rejected. -/
theorem C1_amended_no_validation (s : GearSpec)
    (h : tooth_thickness s ≤ 0 ∨ root_radius s ≤ 0) :
    (generate s).1 = disk (outer_radius s)
      \ ⋃ k ∈ Finset.Icc 1 s.teeth_count,
          ccwRot ((k : ℝ) * (2 * Real.pi / (s.teeth_count : ℝ))) '' tooth_poly s
    ∧ (generate s).2 = s.module * ((s.teeth_count : ℝ) + 2 * s.profile_shift) / 2 :=
  ⟨generate_closed s, rfl⟩

/-- C1 witness: the amended theorem applied at the infeasible input `specBad`. -/
theorem C1_witness :
    tooth_thickness specBad ≤ 0
    ∧ (generate specBad).2
        = specBad.module * ((specBad.teeth_count : ℝ) + 2 * specBad.profile_shift) / 2 := by
  have h : tooth_thickness specBad ≤ 0 := by
    have hpi := Real.pi_lt_d2
    simp only [tooth_thickness, circular_pitch, specBad]
    linarith
  exact ⟨h, (C1_amended_no_validation specBad (Or.inl h)).2⟩

/-- C4: `generate` initializes the working polygon as the disk of radius
outer_radius centered at the origin and performs exactly teeth_count
iterations, each subtracting the fixed origin-centered tooth cavity and then
rotating the result about the origin by 2π/teeth_count radians; the returned
region is the working polygon after the last iteration. -/
theorem C4_assembly_loop (s : GearSpec) :
    (generate s).1 =
      (fun A => ccwRot (2 * Real.pi / (s.teeth_count : ℝ)) '' (A \ tooth_poly s))^[s.teeth_count]
        (disk (outer_radius s)) :=
  cutFold_eq_iterate _ _ _ _

/-- C6: for every cavity region, blank radius and `n ≥ 1`, in exact real
arithmetic the accumulator-rotation loop equals subtracting from the fixed
origin-centered disk the union of the cavity rotated by `k·(2π/n)` for
`k = 1..n`; and the cumulative rotation after `n` iterations is exactly `2π`,
the identity. -/
theorem C6_loop_refinement (C : Set Pt) (r : ℝ) (n : ℕ) (hn : 1 ≤ n) :
    cutFold C (2 * Real.pi / (n : ℝ)) r n
      = disk r \ ⋃ k ∈ Finset.Icc 1 n, ccwRot ((k : ℝ) * (2 * Real.pi / (n : ℝ))) '' C
    ∧ ∀ p : Pt, ccwRot ((n : ℝ) * (2 * Real.pi / (n : ℝ))) p = p := by
  refine ⟨?_, teeth_rot_id n⟩
  rw [cutFold_closed, rotUnion_eq_biUnion]
  have h : ccwRot ((n : ℝ) * (2 * Real.pi / (n : ℝ))) = fun p => p :=
    funext (teeth_rot_id n)
  rw [h, Set.image_id']

/-- C6 witness: the loop refinement applied to a concrete cavity (the unit
disk), blank radius 5 and 4 teeth. -/
theorem C6_witness :
    1 ≤ 4
    ∧ ∀ p : Pt, ccwRot (((4 : ℕ) : ℝ) * (2 * Real.pi / ((4 : ℕ) : ℝ))) p = p :=
  ⟨by norm_num, (C6_loop_refinement (disk 1) 5 4 (by norm_num)).2⟩

/-- C7: for every valid GearSpec, rotating the returned gear region about the
origin by 2π/teeth_count radians reproduces the same region exactly:
teeth_count-fold rotational symmetry. -/
theorem C7_rotational_symmetry (s : GearSpec) (hn : 1 ≤ s.teeth_count)
    (ht : 0 < tooth_thickness s) (hr : 0 < root_radius s) :
    ccwRot (2 * Real.pi / (s.teeth_count : ℝ)) '' (generate s).1 = (generate s).1 := by
  have hclosed : (generate s).1
      = disk (outer_radius s)
        \ rotUnion (tooth_poly s) (2 * Real.pi / (s.teeth_count : ℝ)) s.teeth_count := by
    show cutFold _ _ _ _ = _
    rw [cutFold_closed]
    have h : ccwRot ((s.teeth_count : ℝ) * (2 * Real.pi / (s.teeth_count : ℝ))) = fun p => p :=
      funext (teeth_rot_id s.teeth_count)
    rw [h, Set.image_id']
  rw [hclosed, image_diff_ccwRot, ccwRot_image_disk,
    rotUnion_rot_invariant _ _ _ hn (teeth_rot_id s.teeth_count)]

/-- C7 witness: the symmetry theorem applied at concrete scenario A
(20 teeth, module 2, backlash 0.1, clearance factor 0.167). -/
theorem C7_witness :
    0 < tooth_thickness specA ∧ 0 < root_radius specA
    ∧ ccwRot (2 * Real.pi / (specA.teeth_count : ℝ)) '' (generate specA).1 = (generate specA).1 := by
  have ht : 0 < tooth_thickness specA := by
    have hpi := Real.pi_gt_three
    simp only [tooth_thickness, circular_pitch, specA]
    linarith
  have hr : 0 < root_radius specA := by
    norm_num [root_radius, pitch_radius, pitch_diameter, dedendum, clearance, addendum, specA]
  exact ⟨ht, hr, C7_rotational_symmetry specA (by norm_num [specA]) ht hr⟩

/-! ### Claim C3 -/

lemma frames_length (s : GearSpec) : (frames s).length = s.frame_count := by
  simp only [frames, linspace, List.length_map, List.length_range]

lemma frames_get (s : GearSpec) (i : ℕ) (hi : i < (frames s).length) :
    (frames s).get ⟨i, hi⟩
      = frame s (sweep_range s * (i : ℝ) / ((s.frame_count : ℝ) - 1)) := by
  simp only [frames, linspace, List.get_eq_getElem, List.getElem_map, List.getElem_range]

/-- C3: for frame_count ≥ 2 the cutter sweep has exactly frame_count frames;
the frame at index i belongs to θ_i = l·i/(frame_count−1), the evenly spaced
samples of [0, l] with l = 2·tooth_thickness/pitch_radius, the first sample
being exactly 0, the last exactly l, the samples strictly increasing (when
the range is nondegenerate, i.e. l > 0), and the frame for θ is the 4-point
cutter profile translated by (−θ·pitch_radius, pitch_radius) and then rotated
by θ via the code's `rotation` helper. -/
theorem C3_sweep (s : GearSpec) (h2 : 2 ≤ s.frame_count)
    (h0 : 0 < (frames s).length) (hl : s.frame_count - 1 < (frames s).length) :
    (frames s).length = s.frame_count
    ∧ (∀ i, ∀ hi : i < (frames s).length,
        (frames s).get ⟨i, hi⟩
          = frame s (sweep_range s * (i : ℝ) / ((s.frame_count : ℝ) - 1)))
    ∧ (frames s).get ⟨0, h0⟩ = frame s 0
    ∧ (frames s).get ⟨s.frame_count - 1, hl⟩ = frame s (sweep_range s)
    ∧ (∀ θ : ℝ, frame s θ
        = rotation ((profile s).map
            (fun p => (p.1 - θ * pitch_radius s, p.2 + pitch_radius s))) θ)
    ∧ (0 < sweep_range s → ∀ i j : ℕ, i < j → j < s.frame_count →
        sweep_range s * (i : ℝ) / ((s.frame_count : ℝ) - 1)
          < sweep_range s * (j : ℝ) / ((s.frame_count : ℝ) - 1)) := by
  have h2R : (2 : ℝ) ≤ (s.frame_count : ℝ) := by exact_mod_cast h2
  refine ⟨frames_length s, frames_get s, ?_, ?_, fun θ => rfl, ?_⟩
  · rw [frames_get]
    norm_num
  · rw [frames_get]
    congr 1
    rw [Nat.cast_sub (by omega), Nat.cast_one, mul_div_assoc,
      div_self (by linarith), mul_one]
  · intro hpos i j hij hj
    have hij2 : (i : ℝ) < (j : ℝ) := by exact_mod_cast hij
    have hd : (0 : ℝ) < (s.frame_count : ℝ) - 1 := by linarith
    exact (div_lt_div_iff_of_pos_right hd).mpr (mul_lt_mul_of_pos_left hij2 hpos)

/-- C3 witness: the sweep characterization applied at concrete scenario A
(16 frames), keeping its length conclusion. -/
theorem C3_witness :
    2 ≤ specA.frame_count ∧ (frames specA).length = specA.frame_count :=
  ⟨by norm_num [specA],
   (C3_sweep specA (by norm_num [specA])
     (by rw [frames_length]; norm_num [specA])
     (by rw [frames_length]; norm_num [specA])).1⟩

/-! ### Claim C5 -/

lemma listUnion_cons (S : Set Pt) (L : List (Set Pt)) :
    listUnion (S :: L) = S ∪ listUnion L := by
  ext p
  simp only [listUnion, Set.mem_setOf_eq, List.mem_cons, Set.mem_union]
  constructor
  · rintro ⟨T, hT | hT, hp⟩
    · exact Or.inl (hT ▸ hp)
    · exact Or.inr ⟨T, hT, hp⟩
  · rintro (hp | ⟨T, hT, hp⟩)
    · exact ⟨S, Or.inl rfl, hp⟩
    · exact ⟨T, Or.inr hT, hp⟩

lemma mirror_mirror (p : Pt) : mirror (mirror p) = p := by
  simp [mirror]

lemma mirror_mirror_image (A : Set Pt) : mirror '' (mirror '' A) = A := by
  rw [Set.image_image]
  have h : (fun p : Pt => mirror (mirror p)) = fun p : Pt => p := funext mirror_mirror
  rw [h, Set.image_id']

lemma listUnion_pairHulls (L : List (List Pt)) (p : Pt) :
    p ∈ listUnion (pairHulls L) ↔
      ∃ i, i + 1 < L.length
        ∧ p ∈ convexHull ℝ {q | q ∈ L.getD i [] ∨ q ∈ L.getD (i + 1) []} := by
  induction L with
  | nil =>
    simp [pairHulls, listUnion]
  | cons X t ih =>
    cases t with
    | nil =>
      simp [pairHulls, listUnion]
    | cons Y rest =>
      rw [show pairHulls (X :: Y :: rest)
          = convexHull ℝ {q | q ∈ X ∨ q ∈ Y} :: pairHulls (Y :: rest) from rfl,
        listUnion_cons]
      constructor
      · rintro (hp | hp)
        · refine ⟨0, ?_, ?_⟩
          · simp only [List.length_cons]
            omega
          · simpa only [List.getD_cons_zero, List.getD_cons_succ] using hp
        · obtain ⟨j, hj, hpj⟩ := ih.mp hp
          refine ⟨j + 1, ?_, ?_⟩
          · simp only [List.length_cons] at hj ⊢
            omega
          · simpa only [List.getD_cons_succ] using hpj
      · rintro ⟨i, hi, hpi⟩
        cases i with
        | zero =>
          exact Or.inl (by simpa only [List.getD_cons_zero, List.getD_cons_succ] using hpi)
        | succ j =>
          refine Or.inr (ih.mpr ⟨j, ?_, ?_⟩)
          · simp only [List.length_cons] at hi ⊢
            omega
          · simpa only [List.getD_cons_succ] using hpi

/-- C5: the tooth cavity equals the union, over every consecutive frame pair
(i, i+1), of the convex hull of the 8 combined points of the two frames,
further unioned with the reflection of that union about the vertical axis;
consequently the cavity is invariant under that reflection. -/
theorem C5_cavity_structure (s : GearSpec) (h2 : 2 ≤ s.frame_count) :
    tooth_poly s =
      {p | ∃ i, i + 1 < (frames s).length
          ∧ p ∈ convexHull ℝ
              {q | q ∈ (frames s).getD i [] ∨ q ∈ (frames s).getD (i + 1) []}}
      ∪ mirror '' {p | ∃ i, i + 1 < (frames s).length
          ∧ p ∈ convexHull ℝ
              {q | q ∈ (frames s).getD i [] ∨ q ∈ (frames s).getD (i + 1) []}}
    ∧ mirror '' tooth_poly s = tooth_poly s := by
  have hU : tooth_union s
      = {p | ∃ i, i + 1 < (frames s).length
          ∧ p ∈ convexHull ℝ
              {q | q ∈ (frames s).getD i [] ∨ q ∈ (frames s).getD (i + 1) []}} :=
    Set.ext fun p => listUnion_pairHulls (frames s) p
  constructor
  · rw [tooth_poly, hU]
  · rw [tooth_poly, Set.image_union, mirror_mirror_image, Set.union_comm]

/-- C5 witness: the cavity-structure theorem applied at concrete scenario A,
keeping its reflection-invariance conclusion. -/
theorem C5_witness :
    2 ≤ specA.frame_count ∧ mirror '' tooth_poly specA = tooth_poly specA :=
  ⟨by norm_num [specA], (C5_cavity_structure specA (by norm_num [specA])).2⟩

/-! ### Claim C8 -/

lemma sq_le_normSq_snd (p : Pt) : p.2 ^ 2 ≤ normSq p := by
  unfold normSq
  nlinarith [sq_nonneg p.1]

lemma frame_point_radius (s : GearSpec) (hm : 0 ≤ s.module)
    (hcf : 0 ≤ s.clearance_factor) (hr : 0 < root_radius s)
    (θ : ℝ) (p : Pt) (hp : p ∈ frame s θ) :
    root_radius s ≤ Real.sqrt (normSq p) := by
  have hout : root_radius s ≤ outer_radius s := by
    simp only [root_radius, outer_radius, dedendum, clearance, addendum]
    nlinarith
  simp only [frame, rotation] at hp
  obtain ⟨q, hq, rfl⟩ := List.mem_map.mp hp
  obtain ⟨q0, hq0, rfl⟩ := List.mem_map.mp hq
  rw [normSq_rotation_point]
  have hy : ((fun p : Pt => (p.1 - θ * pitch_radius s, p.2 + pitch_radius s)) q0).2
        = outer_radius s
      ∨ ((fun p : Pt => (p.1 - θ * pitch_radius s, p.2 + pitch_radius s)) q0).2
        = root_radius s := by
    simp only [profile, List.mem_cons, List.not_mem_nil, or_false] at hq0
    rcases hq0 with rfl | rfl | rfl | rfl
    · left
      simp only [outer_radius]
      ring
    · right
      simp only [root_radius]
      ring
    · right
      simp only [root_radius]
      ring
    · left
      simp only [outer_radius]
      ring
  have h2 : root_radius s ^ 2
      ≤ normSq ((fun p : Pt => (p.1 - θ * pitch_radius s, p.2 + pitch_radius s)) q0) := by
    refine le_trans ?_ (sq_le_normSq_snd _)
    rcases hy with h | h
    · rw [h]
      exact pow_le_pow_left₀ hr.le hout 2
    · rw [h]
  calc root_radius s = Real.sqrt (root_radius s ^ 2) := (Real.sqrt_sq hr.le).symm
    _ ≤ Real.sqrt (normSq _) := Real.sqrt_le_sqrt h2

/-- C8: for a valid GearSpec (nonnegative module and clearance factor,
positive tooth thickness and positive root radius), in exact arithmetic every
point of every swept cutter frame lies at distance at least root_radius from
the origin, and the returned gear region is contained in the closed disk of
radius outer_radius — so the output polygon's vertices lie between
root_radius − ε and outer_radius + ε. -/
theorem C8_radial_bounds (s : GearSpec) (hm : 0 ≤ s.module)
    (hcf : 0 ≤ s.clearance_factor) (ht : 0 < tooth_thickness s)
    (hr : 0 < root_radius s) :
    (∀ F ∈ frames s, ∀ p ∈ F, root_radius s ≤ Real.sqrt (normSq p))
    ∧ (generate s).1 ⊆ disk (outer_radius s) := by
  constructor
  · intro F hF p hp
    simp only [frames] at hF
    obtain ⟨θ, hθ, rfl⟩ := List.mem_map.mp hF
    exact frame_point_radius s hm hcf hr θ p hp
  · rw [generate_closed]
    exact Set.diff_subset

/-- C8 witness: the radial-bounds theorem applied at concrete scenario A,
keeping its containment conclusion. -/
theorem C8_witness :
    0 < tooth_thickness specA ∧ 0 < root_radius specA
    ∧ (generate specA).1 ⊆ disk (outer_radius specA) := by
  have ht : 0 < tooth_thickness specA := by
    have hpi := Real.pi_gt_three
    simp only [tooth_thickness, circular_pitch, specA]
    linarith
  have hr : 0 < root_radius specA := by
    norm_num [root_radius, pitch_radius, pitch_diameter, dedendum, clearance, addendum, specA]
  exact ⟨ht, hr,
    (C8_radial_bounds specA (by norm_num [specA]) (by norm_num [specA]) ht hr).2⟩

/-! ### Claims C2, C9, C10 -/

/-- C2: `generate` computes the derived scalars by the reference formulas —
pitch_radius = module*(teeth_count + 2*profile_shift)/2, circular_pitch = π*module,
tooth_thickness = circular_pitch/2 − backlash, addendum = module,
dedendum = module + clearance_factor*module, outer_radius = pitch_radius + addendum,
root_radius = pitch_radius − dedendum — returns pitch_radius as the second
component of its result, and on teeth_count=10, module=2, profile_shift=1 the
pitch radius is exactly 12. -/
theorem C2_derived_scalars (s : GearSpec) :
    pitch_radius s = s.module * ((s.teeth_count : ℝ) + 2 * s.profile_shift) / 2
    ∧ circular_pitch s = Real.pi * s.module
    ∧ tooth_thickness s = Real.pi * s.module / 2 - s.backlash
    ∧ addendum s = s.module
    ∧ dedendum s = s.module + s.clearance_factor * s.module
    ∧ outer_radius s = pitch_radius s + s.module
    ∧ root_radius s = pitch_radius s - (s.module + s.clearance_factor * s.module)
    ∧ (generate s).2 = pitch_radius s
    ∧ pitch_radius specB = 12 := by
  refine ⟨rfl, rfl, rfl, rfl, rfl, rfl, rfl, rfl, ?_⟩
  norm_num [pitch_radius, pitch_diameter, specB]

/-- C9: `generate` is a deterministic pure function of its seven arguments:
two calls with identical inputs return the identical pitch radius and the
identical gear region.  (Freedom from shared mutable state is reflected by the
fact that the code embeds as a total function of the seven arguments alone;
the debug printing does not enter the result.) -/
theorem C9_deterministic (s t : GearSpec)
    (h1 : s.teeth_count = t.teeth_count) (h2 : s.module = t.module)
    (h3 : s.pressure_angle = t.pressure_angle) (h4 : s.backlash = t.backlash)
    (h5 : s.frame_count = t.frame_count) (h6 : s.profile_shift = t.profile_shift)
    (h7 : s.clearance_factor = t.clearance_factor) :
    (generate s).1 = (generate t).1 ∧ (generate s).2 = (generate t).2 := by
  have hst : s = t := by
    cases s
    cases t
    simp_all
  rw [hst]
  exact ⟨rfl, rfl⟩

/-- C9 witness: the determinism theorem applied at concrete scenario A. -/
theorem C9_witness :
    specA.teeth_count = specA.teeth_count ∧ (generate specA).2 = (generate specA).2 :=
  ⟨rfl, (C9_deterministic specA specA rfl rfl rfl rfl rfl rfl rfl).2⟩

/-- C10: the helper `rotation(X, a)` with no center maps each point `(x, y)` to
`(x*cos a + y*sin a, -x*sin a + y*cos a)`; this is norm-preserving and equals
the standard counter-clockwise rotation by `-a` (i.e. a clockwise rotation by
`a`), so each sweep frame at parameter θ is the translated profile rotated by
`-θ` in the counter-clockwise-positive convention. -/
theorem C10_rotation_helper :
    (∀ (X : List Pt) (a : ℝ),
        rotation X a = X.map (fun p =>
          (p.1 * Real.cos a + p.2 * Real.sin a, -(p.1 * Real.sin a) + p.2 * Real.cos a)))
    ∧ (∀ (p : Pt) (a : ℝ), normSq (rotation_point p a) = normSq p)
    ∧ (∀ (p : Pt) (a : ℝ), rotation_point p a = ccwRot (-a) p)
    ∧ (∀ (s : GearSpec) (θ : ℝ),
        frame s θ = ((profile s).map
          (fun p => (p.1 - θ * pitch_radius s, p.2 + pitch_radius s))).map
            (fun p => ccwRot (-θ) p)) := by
  refine ⟨fun X a => rfl, normSq_rotation_point, rotation_point_eq_ccwRot, fun s θ => ?_⟩
  unfold frame rotation
  exact List.map_congr_left fun p _ => rotation_point_eq_ccwRot p θ

end

end Gear
